import Mathlib

/-!
Shallow embedding of `backend/services/german_travel_rules.py`.

Modelling conventions:
- A Python `datetime` is a count of seconds (`Nat`); `datetime.date()` becomes
  integer division by 86400, so a "calendar date" is a day number (`Nat`).
  Naive datetimes compare, subtract and truncate to dates exactly this way.
- A Python `Decimal` is a rational number (`ℚ`); `Decimal.quantize(0.01,
  ROUND_HALF_UP)` becomes `money` below (round to cents, ties away from zero).
- The dataclass fields `start`/`end` are `Option Nat` because the validator
  explicitly checks them against `None`.
- `raise TravelRuleValidationError(msg)` becomes `Except.error msg`;
  functions that can raise return `Except String _`.
- Trace strings are reproduced with the same shape; calendar dates are
  rendered as day numbers and fractional hours with two decimals (Python's
  `.2f` on a `Decimal` differs only on exact half-cent ties, a display-only
  corner that no theorem below inspects).
-/

def RULE_VERSION : String := "DE_TRAVEL_RULES_2026_01"

def DOMESTIC_FULL_DAY_RATE : ℚ := 28.00

def DOMESTIC_PARTIAL_DAY_RATE : ℚ := 14.00

def MEAL_DEDUCTION_RATES : List (String × ℚ) :=
  [("breakfast", 0.20), ("lunch", 0.40), ("dinner", 0.40)]

def INTERNATIONAL_RATE_TABLE : List (String × (ℚ × ℚ)) :=
  [("AT", (40.00, 27.00)),
   ("CH", (64.00, 43.00)),
   ("FR", (53.00, 35.00)),
   ("NL", (47.00, 32.00))]

structure Receipt where
  receipt_id : String
  amount : ℚ
deriving DecidableEq

structure DayMealProvision where
  day : Nat
  breakfast : Bool := false
  lunch : Bool := false
  dinner : Bool := false
deriving DecidableEq

structure TripSegment where
  trip_id : String
  start : Option Nat
  «end» : Option Nat
  country_code : String := "DE"
  city : Option String := none
  provided_meals : List DayMealProvision := []
  receipts : List Receipt := []
deriving DecidableEq

/-- The `full_day`/`partial_day` rate pair handed around as a dict in the source. -/
structure RateSet where
  full_day : ℚ
  partial_day : ℚ
deriving DecidableEq

/-- `Decimal.quantize(Decimal("0.01"), rounding=ROUND_HALF_UP)`: round to a
multiple of 1/100, ties away from zero. -/
def money (q : ℚ) : ℚ :=
  if q < 0 then -(((⌊-q * 100 + 1/2⌋ : ℤ) : ℚ) / 100)
  else ((⌊q * 100 + 1/2⌋ : ℤ) : ℚ) / 100

/-- `datetime.date()` on a seconds count: the day number. -/
def dayOf (t : Nat) : Nat := t / 86400

/-- Sort key `lambda s: s.start`; validation has ruled out `none` wherever
the source reads the field. -/
def startKey (s : TripSegment) : Nat := s.start.getD 0

def endKey (s : TripSegment) : Nat := s.«end».getD 0

/-- The inclusive day range `start_day, start_day+1, ..., end_day` walked by
the `while current <= end_day` loops (empty when `end_day < start_day`). -/
def dayRange (a b : Nat) : List Nat := (List.range (b + 1 - a)).map (a + ·)

/-- Render a quantized amount the way `str(Decimal(...))` prints a
two-decimal value. -/
def fmtMoney (q : ℚ) : String :=
  let c : Int := ⌊q * 100⌋
  let sign := if c < 0 then "-" else ""
  let a : Nat := c.natAbs
  let cents := a % 100
  let centsStr := if cents < 10 then "0" ++ toString cents else toString cents
  sign ++ toString (a / 100) ++ "." ++ centsStr

def fmtHours (q : ℚ) : String := fmtMoney (money q)

def fmtPct (q : ℚ) : String := toString (⌊q * 100 + 1/2⌋ : ℤ)

/-- `_get_rates_for_country`. -/
def get_rates_for_country (country_code : String) : Except String RateSet :=
  let normalized := country_code.toUpper
  if normalized = "DE" then
    .ok { full_day := DOMESTIC_FULL_DAY_RATE, partial_day := DOMESTIC_PARTIAL_DAY_RATE }
  else
    match List.lookup normalized INTERNATIONAL_RATE_TABLE with
    | none =>
        .error s!"No international per-diem rates configured for country code {normalized}."
    | some r => .ok { full_day := r.1, partial_day := r.2 }

/-- The per-segment body of the `for segment in segments` validation loop. -/
def check_segment (segment : TripSegment) : Except String Unit :=
  match segment.start, segment.«end» with
  | none, _ => .error s!"Trip {segment.trip_id} has missing start/end datetime."
  | some _, none => .error s!"Trip {segment.trip_id} has missing start/end datetime."
  | some st, some en =>
      if en ≤ st then
        .error s!"Trip {segment.trip_id} has impossible time span (end before/equal start)."
      else .ok ()

/-- The `for segment in segments` validation loop of `_validate_segments`. -/
def check_each : List TripSegment → Except String Unit
  | [] => .ok ()
  | s :: rest =>
      match check_segment s with
      | .error e => .error e
      | .ok _ => check_each rest

/-- The `for prev, current in zip(ordered, ordered[1:])` walk of
`_validate_overlaps`. -/
def checkAdjacent : List TripSegment → Except String Unit
  | a :: b :: rest =>
      if startKey b < endKey a then
        .error s!"Trips {a.trip_id} and {b.trip_id} overlap."
      else checkAdjacent (b :: rest)
  | _ => .ok ()

/-- `_validate_overlaps`: sort by start (stably, as Python's `sorted`), then
check adjacent pairs only. -/
def validate_overlaps (segments : List TripSegment) : Except String Unit :=
  checkAdjacent (segments.mergeSort (fun a b => decide (startKey a ≤ startKey b)))

/-- The flattened `(receipt_id, trip_id)` visit order of the nested
`for segment / for receipt` loops of `_validate_duplicate_receipts`. -/
def receiptPairs (segments : List TripSegment) : List (String × String) :=
  (segments.map (fun s => s.receipts.map (fun r => (r.receipt_id, s.trip_id)))).flatten

/-- The `seen` dict scan of `_validate_duplicate_receipts`, over the flattened
pair list (the dict is an association list with the same lookup semantics,
since each key is inserted at most once). -/
def scanReceipts : List (String × String) → List (String × String) → Except String Unit
  | [], _ => .ok ()
  | (rid, tid) :: rest, seen =>
      match List.lookup rid seen with
      | some owner => .error s!"Duplicate receipt id {rid} in trips {owner} and {tid}."
      | none => scanReceipts rest ((rid, tid) :: seen)

/-- `_validate_duplicate_receipts`. -/
def validate_duplicate_receipts (segments : List TripSegment) : Except String Unit :=
  scanReceipts (receiptPairs segments) []

/-- `_validate_segments`. -/
def validate_segments (segments : List TripSegment) : Except String Unit :=
  if segments.isEmpty then .error "At least one trip segment is required."
  else
    match check_each segments with
    | .error e => .error e
    | .ok _ =>
        match validate_overlaps segments with
        | .error e => .error e
        | .ok _ => validate_duplicate_receipts segments

/-- `_calculate_day_allowance`. -/
def calculate_day_allowance (segment : TripSegment) (rates : RateSet) :
    ℚ × List String :=
  let st := startKey segment
  let en := endKey segment
  let start_day := dayOf st
  let end_day := dayOf en
  if start_day = end_day then
    let worked_hours : ℚ := ((en : ℚ) - (st : ℚ)) / 3600
    if 8 ≤ worked_hours then
      let amount := rates.partial_day
      (money amount,
        [s!"Single-day trip {start_day}: absence {fmtHours worked_hours}h >= 8h, partial-day rate {fmtMoney amount}."])
    else
      (money 0,
        [s!"Single-day trip {start_day}: absence {fmtHours worked_hours}h < 8h, no per diem."])
  else
    let folded := (dayRange start_day end_day).foldl
      (fun (acc : ℚ × List String) current =>
        if current = start_day ∨ current = end_day then
          (acc.1 + rates.partial_day,
            acc.2 ++ [s!"{current}: arrival/departure partial-day rate {fmtMoney rates.partial_day}."])
        else
          (acc.1 + rates.full_day,
            acc.2 ++ [s!"{current}: full-day rate {fmtMoney rates.full_day}."]))
      ((0 : ℚ), ([] : List String))
    (money folded.1, folded.2)

/-- `getattr(meals, meal_key)` for the three meal keys. -/
def mealFlag (meals : DayMealProvision) (key : String) : Bool :=
  if key = "breakfast" then meals.breakfast
  else if key = "lunch" then meals.lunch
  else if key = "dinner" then meals.dinner
  else false

/-- The dict comprehension `{entry.day: entry for entry in segment.provided_meals}`:
on duplicate days the last entry wins, and `.get` returns it. -/
def provided_by_day (entries : List DayMealProvision) (d : Nat) :
    Option DayMealProvision :=
  entries.foldl (fun acc entry => if entry.day = d then some entry else acc) none

/-- `_calculate_meal_deductions`. -/
def calculate_meal_deductions (segment : TripSegment) (full_day_rate : ℚ) :
    ℚ × List String :=
  let days := dayRange (dayOf (startKey segment)) (dayOf (endKey segment))
  let folded := days.foldl
    (fun (acc : ℚ × List String) current_day =>
      match provided_by_day segment.provided_meals current_day with
      | none => acc
      | some meals =>
          let inner := MEAL_DEDUCTION_RATES.foldl
            (fun (dacc : ℚ × List String) kv =>
              let key := kv.1
              if mealFlag meals key then
                let deduction := money (full_day_rate * kv.2)
                (dacc.1 + deduction,
                  dacc.2 ++ [s!"{current_day}: {key} provided, deduct {fmtPct kv.2}% of full-day rate = {fmtMoney deduction}."])
              else dacc)
            ((0 : ℚ), ([] : List String))
          if inner.1 ≠ 0 then
            (acc.1 + inner.1,
              acc.2 ++ inner.2 ++ [s!"{current_day}: meal deduction subtotal {fmtMoney inner.1}."])
          else (acc.1, acc.2 ++ inner.2))
    ((0 : ℚ), ([] : List String))
  if folded.1 = 0 then
    (money folded.1, folded.2 ++ [s!"Trip {segment.trip_id}: no meal deductions."])
  else (money folded.1, folded.2)

structure Totals where
  gross_allowance : ℚ
  meal_deductions : ℚ
  net_allowance : ℚ
deriving DecidableEq

structure PerTripResult where
  trip_id : String
  country_code : String
  gross_allowance : ℚ
  meal_deductions : ℚ
  net_allowance : ℚ
  calculation_steps : List String
deriving DecidableEq

structure AggregateResult where
  rule_version : String
  totals : Totals
  calculation_steps : List String
  by_trip : List PerTripResult
deriving DecidableEq

/-- The `for segment in sorted(segments, ...)` body of `calculate`, with the
running state (gross total, deduction total, steps, by_trip) made explicit.
The source serializes the monetary fields with `str(...)`; the model keeps
the quantized rationals themselves (`str` is injective on them). -/
def processSegments :
    List TripSegment → ℚ × ℚ × List String × List PerTripResult →
      Except String (ℚ × ℚ × List String × List PerTripResult)
  | [], acc => .ok acc
  | segment :: rest, (gross_total, meal_deduction_total, steps, by_trip) =>
      match get_rates_for_country segment.country_code with
      | .error e => .error e
      | .ok rates =>
          let kind := if segment.country_code.toUpper = "DE" then "domestic" else "international"
          let header :=
            s!"Trip {segment.trip_id}: {kind} rates (full_day={fmtMoney rates.full_day}, partial_day={fmtMoney rates.partial_day})."
          let dayResult := calculate_day_allowance segment rates
          let day_allowance := dayResult.1
          let mealResult := calculate_meal_deductions segment rates.full_day
          let meal_deduction := mealResult.1
          let reimbursable := money (day_allowance - meal_deduction)
          let segment_steps :=
            [header] ++ dayResult.2 ++ mealResult.2 ++
              [s!"Trip {segment.trip_id} subtotal = {fmtMoney day_allowance} - {fmtMoney meal_deduction} = {fmtMoney reimbursable}."]
          let trip : PerTripResult :=
            { trip_id := segment.trip_id
              country_code := segment.country_code.toUpper
              gross_allowance := money day_allowance
              meal_deductions := money meal_deduction
              net_allowance := reimbursable
              calculation_steps := segment_steps }
          processSegments rest
            (gross_total + day_allowance, meal_deduction_total + meal_deduction,
              steps ++ segment_steps, by_trip ++ [trip])

/-- `GermanTravelRulesService.calculate`. -/
def calculate (segments : List TripSegment) : Except String AggregateResult :=
  match validate_segments segments with
  | .error e => .error e
  | .ok _ =>
      let ordered := segments.mergeSort (fun a b => decide (startKey a ≤ startKey b))
      match processSegments ordered
          (0, 0, [s!"Applying rule version: {RULE_VERSION}"], []) with
      | .error e => .error e
      | .ok (gross_total, meal_deduction_total, steps, by_trip) =>
          let net_total := money (gross_total - meal_deduction_total)
          let totals : Totals :=
            { gross_allowance := money gross_total
              meal_deductions := money meal_deduction_total
              net_allowance := net_total }
          .ok { rule_version := RULE_VERSION
                totals := totals
                calculation_steps := steps ++
                  [s!"Overall total = gross {fmtMoney totals.gross_allowance} - deductions {fmtMoney totals.meal_deductions} = {fmtMoney net_total}."]
                by_trip := by_trip }

/-- `calculate_and_persist` re-emits the same four fields of the calculation
payload unchanged. -/
def calculate_and_persist (segments : List TripSegment) :
    Except String AggregateResult :=
  calculate segments

/-! Basic lemmas about the monetary model. -/

/-- Whether an `Except` value is a raised error. -/
def isErr {α : Type} (x : Except String α) : Bool :=
  match x with
  | .error _ => true
  | .ok _ => false

/-- A rational that is a whole number of cents (the value class every
quantized `Decimal` of the source lives in). -/
def Cents (q : ℚ) : Prop := ∃ k : ℤ, q = (k : ℚ) / 100

theorem money_cents (q : ℚ) : Cents (money q) := by
  unfold money
  split
  · exact ⟨-⌊-q * 100 + 1 / 2⌋, by push_cast; ring⟩
  · exact ⟨⌊q * 100 + 1 / 2⌋, rfl⟩

theorem money_of_cents {q : ℚ} (h : Cents q) : money q = q := by
  obtain ⟨k, rfl⟩ := h
  unfold money
  split
  · have : -((k : ℚ) / 100) * 100 + 1 / 2 = ((-k : ℤ) : ℚ) + 1 / 2 := by push_cast; ring
    rw [this, Int.floor_int_add]
    norm_num
    ring
  · have : (k : ℚ) / 100 * 100 + 1 / 2 = (k : ℚ) + 1 / 2 := by ring
    rw [this, Int.floor_int_add]
    norm_num

theorem cents_zero : Cents 0 := ⟨0, by norm_num⟩

theorem cents_add {a b : ℚ} (ha : Cents a) (hb : Cents b) : Cents (a + b) := by
  obtain ⟨j, rfl⟩ := ha; obtain ⟨k, rfl⟩ := hb
  exact ⟨j + k, by push_cast; ring⟩

theorem cents_sub {a b : ℚ} (ha : Cents a) (hb : Cents b) : Cents (a - b) := by
  obtain ⟨j, rfl⟩ := ha; obtain ⟨k, rfl⟩ := hb
  exact ⟨j - k, by push_cast; ring⟩

theorem cents_sum {l : List ℚ} (h : ∀ x ∈ l, Cents x) : Cents l.sum := by
  induction l with
  | nil => exact cents_zero
  | cons a t ih =>
      rw [List.sum_cons]
      exact cents_add (h a (by simp)) (ih fun x hx => h x (List.mem_cons_of_mem a hx))

theorem money_zero : money 0 = 0 := money_of_cents cents_zero

/-! Structure of `_calculate_day_allowance`. -/

/-- The first component of a fold whose step adds `f d` to the running sum
(and does anything to the trace) is the running sum plus the mapped sum. -/
theorem foldl_fst_sum {β : Type} (f : β → ℚ) (g : ℚ × List String → β → ℚ × List String)
    (hg : ∀ acc d, (g acc d).1 = acc.1 + f d) :
    ∀ (days : List β) (a : ℚ) (l : List String),
      (days.foldl g (a, l)).1 = a + (days.map f).sum := by
  intro days
  induction days with
  | nil => intro a l; simp
  | cons d t ih =>
      intro a l
      rw [List.foldl_cons]
      have : g (a, l) d = ((g (a, l) d).1, (g (a, l) d).2) := rfl
      rw [this, ih, hg]
      simp [add_assoc]

theorem rates_of_resolver_cents {c : String} {r : RateSet}
    (h : get_rates_for_country c = .ok r) : Cents r.full_day ∧ Cents r.partial_day := by
  unfold get_rates_for_country at h
  by_cases hde : c.toUpper = "DE"
  · rw [if_pos hde] at h
    cases h
    exact ⟨⟨2800, by norm_num [DOMESTIC_FULL_DAY_RATE]⟩,
           ⟨1400, by norm_num [DOMESTIC_PARTIAL_DAY_RATE]⟩⟩
  · rw [if_neg hde] at h
    rcases hlk : List.lookup c.toUpper INTERNATIONAL_RATE_TABLE with _ | pr
    · rw [hlk] at h; cases h
    · rw [hlk] at h
      cases h
      simp only [INTERNATIONAL_RATE_TABLE, List.lookup] at hlk
      repeat' split at hlk
      · cases hlk; exact ⟨⟨4000, by norm_num⟩, ⟨2700, by norm_num⟩⟩
      · cases hlk; exact ⟨⟨6400, by norm_num⟩, ⟨4300, by norm_num⟩⟩
      · cases hlk; exact ⟨⟨5300, by norm_num⟩, ⟨3500, by norm_num⟩⟩
      · cases hlk; exact ⟨⟨4700, by norm_num⟩, ⟨3200, by norm_num⟩⟩
      · cases hlk

theorem cents_nat_mul (n : Nat) {q : ℚ} (h : Cents q) : Cents ((n : ℚ) * q) := by
  obtain ⟨k, rfl⟩ := h
  exact ⟨(n : ℤ) * k, by push_cast; ring⟩

/-- The single-day regime of `_calculate_day_allowance`: the 8-hour gate,
stated on the elapsed seconds. -/
theorem day_allowance_single (segment : TripSegment) (rates : RateSet) (st en : Nat)
    (hs : segment.start = some st) (he : segment.«end» = some en)
    (hd : dayOf st = dayOf en) :
    (calculate_day_allowance segment rates).1 =
      if 28800 ≤ (en : ℤ) - (st : ℤ) then money rates.partial_day else money 0 := by
  unfold calculate_day_allowance
  simp only [startKey, endKey, hs, he, Option.getD_some]
  rw [if_pos hd]
  by_cases hc : (28800 : ℤ) ≤ (en : ℤ) - (st : ℤ)
  · have hq : (8 : ℚ) ≤ ((en : ℚ) - (st : ℚ)) / 3600 := by
      rw [le_div_iff₀ (by norm_num : (0 : ℚ) < 3600)]
      have : ((28800 : ℤ) : ℚ) ≤ (((en : ℤ) - (st : ℤ) : ℤ) : ℚ) := by exact_mod_cast hc
      push_cast at this
      linarith
    rw [if_pos hc, if_pos hq]
  · have hq : ¬ (8 : ℚ) ≤ ((en : ℚ) - (st : ℚ)) / 3600 := by
      rw [le_div_iff₀ (by norm_num : (0 : ℚ) < 3600)]
      intro hcon
      apply hc
      have : ((28800 : ℤ) : ℚ) ≤ (((en : ℤ) - (st : ℤ) : ℤ) : ℚ) := by push_cast; linarith
      exact_mod_cast this
    rw [if_neg hc, if_neg hq]

theorem dayRange_shift (sd m : Nat) :
    dayRange sd (sd + (m + 1)) = (List.range (m + 2)).map (sd + ·) := by
  have h : sd + (m + 1) + 1 - sd = m + 2 := by omega
  rw [dayRange, h]

/-- Pricing the days of a multi-day span: partial for the first day, full for
each of the `m` middle days, partial for the last. -/
theorem sum_day_prices (p fl : ℚ) (sd m : Nat) :
    ((dayRange sd (sd + (m + 1))).map
      (fun d => if d = sd ∨ d = sd + (m + 1) then p else fl)).sum =
      p + (m : ℚ) * fl + p := by
  rw [dayRange_shift, List.map_map]
  have h2 : m + 2 = (m + 1) + 1 := rfl
  rw [h2, List.range_succ, List.range_succ_eq_map]
  simp only [List.map_append, List.map_cons, List.map_map, List.map_nil,
    List.sum_append, List.sum_cons, List.sum_nil, Function.comp]
  rw [if_pos (Or.inr trivial),
      List.sum_eq_card_nsmul _ fl ?hconst]
  case hconst =>
    intro x hx
    simp only [List.mem_map, List.mem_range, Function.comp_apply] at hx
    obtain ⟨i, hi, hval⟩ := hx
    rw [if_neg (by omega)] at hval
    exact hval.symm
  simp only [List.length_map, List.length_range, nsmul_eq_mul, add_zero]
  rw [if_pos (Or.inl trivial)]

/-- The multi-day regime of `_calculate_day_allowance` as a quantized sum of
per-day prices. -/
theorem day_allowance_multi (segment : TripSegment) (rates : RateSet) (st en : Nat)
    (hs : segment.start = some st) (he : segment.«end» = some en)
    (hd : dayOf st ≠ dayOf en) :
    (calculate_day_allowance segment rates).1 =
      money (((dayRange (dayOf st) (dayOf en)).map
        (fun d => if d = dayOf st ∨ d = dayOf en then rates.partial_day
                  else rates.full_day)).sum) := by
  unfold calculate_day_allowance
  simp only [startKey, endKey, hs, he, Option.getD_some]
  rw [if_neg hd]
  rw [foldl_fst_sum
    (fun d => if d = dayOf st ∨ d = dayOf en then rates.partial_day else rates.full_day)
    _ (fun acc d => by dsimp only; split <;> simp)]
  simp

/-- C1: for a segment whose start and end fall on different calendar dates,
the gross allowance is the partial-day rate for the first date plus the
full-day rate for every date strictly between plus the partial-day rate for
the last date, with no 8-hour gate on the first or last day. -/
theorem claim_C1_multi_day_pricing (segment : TripSegment) (c : String)
    (rates : RateSet) (st en : Nat)
    (hs : segment.start = some st) (he : segment.«end» = some en)
    (hr : get_rates_for_country c = .ok rates)
    (hv : st < en) (hd : dayOf st ≠ dayOf en) :
    (calculate_day_allowance segment rates).1 =
      rates.partial_day + ((dayOf en - dayOf st - 1 : Nat) : ℚ) * rates.full_day +
        rates.partial_day := by
  have hle : dayOf st ≤ dayOf en := Nat.div_le_div_right (le_of_lt hv)
  obtain ⟨m, hm⟩ : ∃ m, dayOf en = dayOf st + (m + 1) :=
    ⟨dayOf en - dayOf st - 1, by omega⟩
  rw [day_allowance_multi segment rates st en hs he hd, hm, sum_day_prices]
  have hm2 : dayOf st + (m + 1) - dayOf st - 1 = m := by omega
  rw [hm2]
  have hc := rates_of_resolver_cents hr
  exact money_of_cents (cents_add (cents_add hc.2 (cents_nat_mul m hc.1)) hc.2)

/-- The spec's domestic 3-calendar-day example,
2026-02-01T08:00 to 2026-02-03T18:00 (in epoch seconds). -/
def segC1 : TripSegment :=
  { trip_id := "T1", start := some 1769932800, «end» := some 1770141600 }

theorem claim_C1_multi_day_pricing_witness :
    (calculate_day_allowance segC1 { full_day := 28, partial_day := 14 }).1 = 56 := by
  rw [claim_C1_multi_day_pricing segC1 "DE" { full_day := 28, partial_day := 14 }
      1769932800 1770141600 rfl rfl (by with_unfolding_all rfl) (by decide) (by decide)]
  with_unfolding_all decide

/-- C2: for a segment whose start and end fall on the same calendar date, the
gross allowance is the country's partial-day rate when the elapsed time is at
least 8 hours (28800 seconds) and zero otherwise. -/
theorem claim_C2_single_day_gate (segment : TripSegment) (c : String)
    (rates : RateSet) (st en : Nat)
    (hs : segment.start = some st) (he : segment.«end» = some en)
    (hr : get_rates_for_country c = .ok rates)
    (hd : dayOf st = dayOf en) :
    (calculate_day_allowance segment rates).1 =
      if 28800 ≤ (en : ℤ) - (st : ℤ) then rates.partial_day else 0 := by
  rw [day_allowance_single segment rates st en hs he hd,
      money_of_cents (rates_of_resolver_cents hr).2, money_zero]

/-- A domestic single-day trip of exactly 8 hours. -/
def segC2long : TripSegment :=
  { trip_id := "T8h", start := some 1769932800, «end» := some 1769961600 }

/-- A domestic single-day trip of 6 hours. -/
def segC2short : TripSegment :=
  { trip_id := "T6h", start := some 1769932800, «end» := some 1769954400 }

theorem claim_C2_single_day_gate_witness :
    (calculate_day_allowance segC2long { full_day := 28, partial_day := 14 }).1 = 14 ∧
    (calculate_day_allowance segC2short { full_day := 28, partial_day := 14 }).1 = 0 := by
  constructor
  · rw [claim_C2_single_day_gate segC2long "DE" { full_day := 28, partial_day := 14 }
        1769932800 1769961600 rfl rfl (by with_unfolding_all rfl) (by decide)]
    with_unfolding_all decide
  · rw [claim_C2_single_day_gate segC2short "DE" { full_day := 28, partial_day := 14 }
        1769932800 1769954400 rfl rfl (by with_unfolding_all rfl) (by decide)]
    with_unfolding_all decide

def mealDayDeduction (full_day_rate : ℚ) (m : DayMealProvision) : ℚ :=
  (if m.breakfast then money (full_day_rate * 0.20) else 0) +
  (if m.lunch then money (full_day_rate * 0.40) else 0) +
  (if m.dinner then money (full_day_rate * 0.40) else 0)

theorem mealFlag_breakfast (m : DayMealProvision) : mealFlag m "breakfast" = m.breakfast := rfl

theorem mealFlag_lunch (m : DayMealProvision) : mealFlag m "lunch" = m.lunch := by
  unfold mealFlag
  rw [if_neg (by decide), if_pos rfl]

theorem mealFlag_dinner (m : DayMealProvision) : mealFlag m "dinner" = m.dinner := by
  unfold mealFlag
  rw [if_neg (by decide), if_neg (by decide), if_pos rfl]

theorem dedStep_fst (x a : ℚ) (l1 l2 : List String) :
    ((if x ≠ 0 then (a + x, l1) else (a, l2)) : ℚ × List String).1 = a + x := by
  split
  · rfl
  · next h =>
      simp only [not_not] at h
      rw [h, add_zero]

/-- `_calculate_meal_deductions` equals the quantized sum, over the days of
the span that carry a `DayMealProvision` record, of the per-day deductions
(days without a record contribute zero). -/
theorem meal_deductions_spec (segment : TripSegment) (full : ℚ) :
    (calculate_meal_deductions segment full).1 =
      money (((dayRange (dayOf (startKey segment)) (dayOf (endKey segment))).map
        (fun d => match provided_by_day segment.provided_meals d with
          | none => 0
          | some m => mealDayDeduction full m)).sum) := by
  unfold calculate_meal_deductions
  dsimp only
  split
  all_goals {
    dsimp only
    congr 1
    rw [foldl_fst_sum (fun d => match provided_by_day segment.provided_meals d with
          | none => 0
          | some m => mealDayDeduction full m) _ ?hg, zero_add]
    case hg =>
      intro acc d
      dsimp only
      rcases h : provided_by_day segment.provided_meals d with _ | m
      · simp
      · dsimp only
        rw [foldl_fst_sum (fun kv => if mealFlag m kv.1 then money (full * kv.2) else 0)
            _ (fun dacc kv => by dsimp only; split <;> simp), zero_add]
        rw [dedStep_fst]
        congr 1
        simp only [MEAL_DEDUCTION_RATES, List.map_cons, List.map_nil, List.sum_cons,
          List.sum_nil, add_zero, mealDayDeduction, mealFlag_breakfast, mealFlag_lunch,
          mealFlag_dinner]
        norm_num
        ring
  }

/-- The spec's 3-day domestic example with breakfast and lunch provided on
the middle day (2026-02-02, day number 20486). -/
def segC3 : TripSegment :=
  { trip_id := "T1", start := some 1769932800, «end» := some 1770141600,
    provided_meals := [{ day := 20486, breakfast := true, lunch := true }] }

/-- C3: the meal deduction is the quantized sum over the days of the span with
a matching provision record of quantize(full-day rate × ratio) for each meal
flag set, with ratios 0.20/0.40/0.40, always against the full-day rate; and the
domestic 3-day example with breakfast and lunch on the middle day yields
deductions 16.80 and net allowance 39.20. -/
theorem claim_C3_meal_deduction_rule :
    (∀ (segment : TripSegment) (full : ℚ),
      (calculate_meal_deductions segment full).1 =
        money (((dayRange (dayOf (startKey segment)) (dayOf (endKey segment))).map
          (fun d => match provided_by_day segment.provided_meals d with
            | none => 0
            | some m => mealDayDeduction full m)).sum)) ∧
    (calculate [segC3]).toOption.map
        (fun r => (r.totals.meal_deductions, r.totals.net_allowance)) =
      some (84/5, 196/5) := by
  constructor
  · exact meal_deductions_spec
  · with_unfolding_all decide

/-- Two segments overlap in time: each starts before the other ends. -/
def Overlaps (a b : TripSegment) : Prop :=
  startKey a < endKey b ∧ startKey b < endKey a

theorem overlaps_symm {a b : TripSegment} (h : Overlaps a b) : Overlaps b a :=
  ⟨h.2, h.1⟩

theorem checkAdjacent_ok_iff (l : List TripSegment) :
    checkAdjacent l = .ok () ↔
      List.Chain' (fun a b => ¬ startKey b < endKey a) l := by
  induction l with
  | nil => simp [checkAdjacent]
  | cons a t ih =>
      cases t with
      | nil => simp [checkAdjacent]
      | cons b t' =>
          rw [List.chain'_cons, ← ih]
          simp only [checkAdjacent]
          split
          · next h => simp [h]
          · next h => simp [h]

/-- Along a list whose members all satisfy `start < end`, adjacent
non-overlap (`end ≤ next start`) extends to all pairs. -/
theorem pairwise_of_chain' {l : List TripSegment}
    (hm : ∀ s ∈ l, startKey s < endKey s)
    (hc : List.Chain' (fun a b => endKey a ≤ startKey b) l) :
    List.Pairwise (fun a b => endKey a ≤ startKey b) l := by
  induction l with
  | nil => simp
  | cons a t ih =>
      cases t with
      | nil => simp
      | cons b t' =>
          rw [List.chain'_cons] at hc
          have hpt := ih (fun s hs => hm s (List.mem_cons_of_mem a hs)) hc.2
          refine List.pairwise_cons.mpr ⟨?_, hpt⟩
          intro x hx
          rcases List.mem_cons.mp hx with rfl | hx'
          · exact hc.1
          · have h1 : endKey a ≤ startKey b := hc.1
            have h2 : startKey b < endKey b := hm b (by simp)
            have h3 : endKey b ≤ startKey x := (List.pairwise_cons.mp hpt).1 x hx'
            omega

theorem validate_overlaps_ok_iff (l : List TripSegment)
    (hm : ∀ s ∈ l, startKey s < endKey s) :
    validate_overlaps l = .ok () ↔
      List.Pairwise (fun a b => ¬ Overlaps a b) l := by
  unfold validate_overlaps
  have hperm : (l.mergeSort (fun a b => decide (startKey a ≤ startKey b))).Perm l :=
    List.mergeSort_perm l _
  have hsorted : List.Pairwise
      (fun a b => (fun a b => decide (startKey a ≤ startKey b)) a b = true)
      (l.mergeSort (fun a b => decide (startKey a ≤ startKey b))) :=
    List.sorted_mergeSort
      (fun a b c hab hbc => by simp only [decide_eq_true_eq] at hab hbc ⊢; omega)
      (fun a b => by simp only [Bool.or_eq_true, decide_eq_true_eq]; omega) l
  have hsymm : ∀ {x y : TripSegment}, ¬ Overlaps x y → ¬ Overlaps y x :=
    fun h hov => h (overlaps_symm hov)
  rw [checkAdjacent_ok_iff]
  constructor
  · intro hchain
    have hchain' := hchain.imp (fun {a b} h => Nat.le_of_not_lt h)
    have hpw := pairwise_of_chain' (fun s hs => hm s (hperm.mem_iff.mp hs)) hchain'
    have hno : List.Pairwise (fun a b => ¬ Overlaps a b)
        (l.mergeSort (fun a b => decide (startKey a ≤ startKey b))) :=
      hpw.imp (fun {a b} h hov => absurd hov.2 (Nat.not_lt.mpr h))
    exact (hperm.pairwise_iff hsymm).mp hno
  · intro hpl
    have hps := (hperm.pairwise_iff hsymm).mpr hpl
    have hcomb := hsorted.and hps
    have hstep : List.Pairwise (fun a b => ¬ startKey b < endKey a)
        (l.mergeSort (fun a b => decide (startKey a ≤ startKey b))) := by
      refine List.Pairwise.imp_of_mem ?_ hcomb
      intro a b ha hb hrab hcon
      obtain ⟨hab, hno⟩ := hrab
      simp only [decide_eq_true_eq] at hab
      have hb' : startKey b < endKey b := hm b (hperm.mem_iff.mp hb)
      exact hno ⟨by omega, hcon⟩
    exact hstep.chain'

/-- C4: for a batch of segments each with `end > start`, the overlap check
(sort by start, compare adjacent pairs only) raises an error exactly when
some pair of segments of the batch, adjacent after sorting or not, truly
overlaps; segments that merely touch pass. -/
theorem not_pairwise_iff_exists_overlap (l : List TripSegment) :
    (¬ List.Pairwise (fun a b => ¬ Overlaps a b) l) ↔
      ∃ (i j : Nat) (hi : i < l.length) (hj : j < l.length),
        i ≠ j ∧ Overlaps l[i] l[j] := by
  rw [List.pairwise_iff_getElem]
  push_neg
  constructor
  · rintro ⟨i, j, hi, hj, hij, hov⟩
    exact ⟨i, j, hi, hj, Nat.ne_of_lt hij, hov⟩
  · rintro ⟨i, j, hi, hj, hne, hov⟩
    rcases Nat.lt_or_ge i j with hlt | hge
    · exact ⟨i, j, hi, hj, hlt, hov⟩
    · have hlt : j < i := Nat.lt_of_le_of_ne hge (Ne.symm hne)
      exact ⟨j, i, hj, hi, hlt, overlaps_symm hov⟩

/-- An `Except String Unit` value raises exactly when it is not `ok ()`. -/
theorem isErr_unit_iff {x : Except String Unit} :
    isErr x = true ↔ ¬ (x = .ok ()) := by
  cases x with
  | error e => simp [isErr]
  | ok u => cases u; simp [isErr]

theorem claim_C4_overlap_validation_complete (l : List TripSegment)
    (hm : ∀ s ∈ l, startKey s < endKey s) :
    isErr (validate_overlaps l) = true ↔
      ∃ (i j : Nat) (hi : i < l.length) (hj : j < l.length),
        i ≠ j ∧ Overlaps l[i] l[j] := by
  rw [isErr_unit_iff, ← not_pairwise_iff_exists_overlap]
  exact not_congr (validate_overlaps_ok_iff l hm)

/-- Two overlapping segments (the second starts before the first ends). -/
def segOv1 : TripSegment :=
  { trip_id := "A", start := some 1769904000, «end» := some 1769940000 }

def segOv2 : TripSegment :=
  { trip_id := "B", start := some 1769932800, «end» := some 1769961600 }

theorem claim_C4_overlap_validation_complete_witness :
    (∀ s ∈ [segOv1, segOv2], startKey s < endKey s) ∧
      (isErr (validate_overlaps [segOv1, segOv2]) = true ↔
        ∃ (i j : Nat) (hi : i < ([segOv1, segOv2] : List TripSegment).length)
          (hj : j < ([segOv1, segOv2] : List TripSegment).length),
          i ≠ j ∧ Overlaps ([segOv1, segOv2] : List TripSegment)[i]
            ([segOv1, segOv2] : List TripSegment)[j]) :=
  ⟨by decide, claim_C4_overlap_validation_complete [segOv1, segOv2] (by decide)⟩


theorem lookup_cons_none {x rid tid : String} {seen : List (String × String)} :
    List.lookup x ((rid, tid) :: seen) = none ↔
      x ≠ rid ∧ List.lookup x seen = none := by
  by_cases hx : x = rid
  · subst hx
    simp [List.lookup]
  · have hbeq : (x == rid) = false := by simpa using hx
    simp only [List.lookup, hbeq]
    exact ⟨fun h => ⟨hx, h⟩, fun h => h.2⟩

theorem scanReceipts_ok_iff (ps : List (String × String)) : ∀ seen,
    scanReceipts ps seen = .ok () ↔
      ((ps.map Prod.fst).Nodup ∧ ∀ p ∈ ps, List.lookup p.1 seen = none) := by
  induction ps with
  | nil => intro seen; simp [scanReceipts]
  | cons p rest ih =>
      intro seen
      obtain ⟨rid, tid⟩ := p
      rcases hlk : List.lookup rid seen with _ | owner
      · simp only [scanReceipts, hlk]
        rw [ih ((rid, tid) :: seen)]
        constructor
        · rintro ⟨hnd, hall⟩
          have hne : ∀ p ∈ rest, p.1 ≠ rid :=
            fun p hp => (lookup_cons_none.mp (hall p hp)).1
          have hseen : ∀ p ∈ rest, List.lookup p.1 seen = none :=
            fun p hp => (lookup_cons_none.mp (hall p hp)).2
          refine ⟨?_, ?_⟩
          · rw [List.map_cons, List.nodup_cons]
            refine ⟨?_, hnd⟩
            intro hmem
            obtain ⟨q, hq, hfst⟩ := List.mem_map.mp hmem
            exact hne q hq hfst
          · intro q hq
            rcases List.mem_cons.mp hq with rfl | hq'
            · exact hlk
            · exact hseen q hq'
        · rintro ⟨hnd2, hall2⟩
          rw [List.map_cons, List.nodup_cons] at hnd2
          refine ⟨hnd2.2, ?_⟩
          intro q hq
          rw [lookup_cons_none]
          constructor
          · intro hfst
            exact hnd2.1 (List.mem_map.mpr ⟨q, hq, hfst⟩)
          · exact hall2 q (List.mem_cons_of_mem _ hq)
      · simp only [scanReceipts, hlk]
        constructor
        · intro h
          exact absurd h (by simp)
        · rintro ⟨hnd, hall⟩
          have h0 : List.lookup rid seen = none :=
            hall (rid, tid) (List.mem_cons_self _ _)
          rw [hlk] at h0
          cases h0

/-- The receipt ids of the whole batch, in visit order. -/
def receiptIds (segments : List TripSegment) : List String :=
  (receiptPairs segments).map Prod.fst

theorem validate_duplicate_receipts_ok_iff (l : List TripSegment) :
    validate_duplicate_receipts l = .ok () ↔ (receiptIds l).Nodup := by
  unfold validate_duplicate_receipts receiptIds
  rw [scanReceipts_ok_iff]
  simp [List.lookup]

/-- The timing defects the per-segment validation loop rejects. -/
def SegTimeBad (s : TripSegment) : Prop :=
  s.start = none ∨ s.«end» = none ∨
    ∃ st en, s.start = some st ∧ s.«end» = some en ∧ en ≤ st

theorem check_segment_ok_iff (s : TripSegment) :
    check_segment s = .ok () ↔ ¬ SegTimeBad s := by
  rcases hs : s.start with _ | st
  · simp [check_segment, SegTimeBad, hs]
  · rcases he : s.«end» with _ | en
    · simp [check_segment, SegTimeBad, hs, he]
    · simp only [check_segment, SegTimeBad, hs, he]
      split
      · next h => simp [h]
      · next h =>
          simp only [reduceCtorEq, false_or, Option.some.injEq]
          constructor
          · intro _ hbad
            obtain ⟨st', en', hst', hen', hle⟩ := hbad
            subst hst'
            subst hen'
            exact h hle
          · intro _
            trivial

theorem check_each_ok_iff (l : List TripSegment) :
    check_each l = .ok () ↔ ∀ s ∈ l, check_segment s = .ok () := by
  induction l with
  | nil => simp [check_each]
  | cons a t ih =>
      rcases h : check_segment a with e | u
      · simp [check_each, h]
      · cases u
        simp [check_each, h, ih]

theorem seg_good_of_not_bad {s : TripSegment} (h : ¬ SegTimeBad s) :
    startKey s < endKey s := by
  rcases hs : s.start with _ | st
  · exact absurd (Or.inl hs) h
  · rcases he : s.«end» with _ | en
    · exact absurd (Or.inr (Or.inl he)) h
    · have hlt : st < en := by
        by_contra hc
        exact h (Or.inr (Or.inr ⟨st, en, hs, he, by omega⟩))
      simp [startKey, endKey, hs, he, hlt]

theorem get_rates_isErr_iff (c : String) :
    isErr (get_rates_for_country c) = true ↔
      (c.toUpper ≠ "DE" ∧
        List.lookup c.toUpper INTERNATIONAL_RATE_TABLE = none) := by
  unfold get_rates_for_country
  by_cases hde : c.toUpper = "DE"
  · simp [hde, isErr]
  · rcases hlk : List.lookup c.toUpper INTERNATIONAL_RATE_TABLE with _ | r
    · simp [hde, hlk, isErr]
    · simp [hde, hlk, isErr]

theorem processSegments_isErr_false_iff (segs : List TripSegment) : ∀ acc,
    isErr (processSegments segs acc) = false ↔
      ∀ s ∈ segs, isErr (get_rates_for_country s.country_code) = false := by
  induction segs with
  | nil => intro acc; simp [processSegments, isErr]
  | cons s t ih =>
      intro acc
      obtain ⟨g, d, st, bt⟩ := acc
      rcases hr : get_rates_for_country s.country_code with e | rates
      · simp [processSegments, hr, isErr]
      · simp only [processSegments, hr]
        rw [ih]
        simp [isErr, hr]

theorem validate_segments_ok_iff (l : List TripSegment) :
    validate_segments l = .ok () ↔
      l.isEmpty = false ∧ check_each l = .ok () ∧ validate_overlaps l = .ok () ∧
        validate_duplicate_receipts l = .ok () := by
  unfold validate_segments
  cases hemp : l.isEmpty
  · rw [if_neg (by simp)]
    rcases hce : check_each l with e | u
    · simp [hce]
    · cases u
      rcases hov : validate_overlaps l with e | u
      · simp [hov]
      · cases u
        simp [hov]
  · rw [if_pos rfl]
    simp [hemp]

theorem calculate_isErr_false_iff (l : List TripSegment) :
    isErr (calculate l) = false ↔
      (validate_segments l = .ok () ∧
        ∀ s ∈ l, isErr (get_rates_for_country s.country_code) = false) := by
  unfold calculate
  rcases hv : validate_segments l with e | u
  · simp [isErr, hv]
  · cases u
    dsimp only
    have hmem : ∀ s : TripSegment,
        s ∈ l.mergeSort (fun a b => decide (startKey a ≤ startKey b)) ↔ s ∈ l :=
      fun s => (List.mergeSort_perm l _).mem_iff
    have hproc := processSegments_isErr_false_iff
      (l.mergeSort (fun a b => decide (startKey a ≤ startKey b)))
      (0, 0, [s!"Applying rule version: {RULE_VERSION}"], [])
    rcases hp : processSegments (l.mergeSort (fun a b => decide (startKey a ≤ startKey b)))
        (0, 0, [s!"Applying rule version: {RULE_VERSION}"], []) with e | out
    · rw [hp] at hproc
      dsimp only
      simp only [isErr]
      simp only [isErr] at hproc
      constructor
      · intro h
        exact absurd h (by simp)
      · rintro ⟨hval, hall⟩
        simp only [show (true = false) ↔ False from by simp, false_iff] at hproc
        exact absurd (fun s hs => hall s ((hmem s).mp hs)) hproc
    · rw [hp] at hproc
      obtain ⟨g, d, stp, bt⟩ := out
      dsimp only
      simp only [isErr]
      simp only [isErr] at hproc
      simp only [show (false = false) ↔ True from by simp, true_iff] at hproc
      constructor
      · intro _
        exact ⟨by trivial, fun s hs => hproc s ((hmem s).mpr hs)⟩
      · intro _
        trivial

theorem not_nodup_iff_exists_two {l : List String} :
    (¬ l.Nodup) ↔ ∃ a, 2 ≤ l.count a := by
  rw [List.nodup_iff_count_le_one]
  push_neg
  constructor
  · rintro ⟨a, ha⟩; exact ⟨a, by omega⟩
  · rintro ⟨a, ha⟩; exact ⟨a, by omega⟩

/-- C5: `calculate` raises a validation error exactly when the batch is empty,
or a segment's timing is missing/impossible, or two segments overlap, or two
receipts share an id, or a country code resolves to no rate set; otherwise a
complete result is returned. -/
theorem claim_C5_precondition_errors (l : List TripSegment) :
    isErr (calculate l) = true ↔
      (l = [] ∨
        (∃ s ∈ l, SegTimeBad s) ∨
        (∃ (i j : Nat) (hi : i < l.length) (hj : j < l.length),
          i ≠ j ∧ Overlaps l[i] l[j]) ∨
        (∃ rid, 2 ≤ (receiptIds l).count rid) ∨
        (∃ s ∈ l, s.country_code.toUpper ≠ "DE" ∧
          List.lookup s.country_code.toUpper INTERNATIONAL_RATE_TABLE = none)) := by
  have hbool : isErr (calculate l) = true ↔ ¬ (isErr (calculate l) = false) := by
    cases isErr (calculate l) <;> simp
  rw [hbool, calculate_isErr_false_iff, validate_segments_ok_iff]
  constructor
  · intro hnot
    by_cases hB : ∃ s ∈ l, SegTimeBad s
    · exact Or.inr (Or.inl hB)
    · push_neg at hB
      have hce : check_each l = .ok () := (check_each_ok_iff l).mpr
        (fun s hs => (check_segment_ok_iff s).mpr (hB s hs))
      have hm : ∀ s ∈ l, startKey s < endKey s :=
        fun s hs => seg_good_of_not_bad (hB s hs)
      by_cases hA : l = []
      · exact Or.inl hA
      · have hemp : l.isEmpty = false := by
          cases hb : l.isEmpty
          · rfl
          · exact absurd (List.isEmpty_iff.mp hb) hA
        by_cases hov : validate_overlaps l = .ok ()
        · by_cases hdr : validate_duplicate_receipts l = .ok ()
          · have hcn : ¬ ∀ s ∈ l, isErr (get_rates_for_country s.country_code) = false := by
              intro hall
              exact hnot ⟨⟨hemp, hce, hov, hdr⟩, hall⟩
            push_neg at hcn
            obtain ⟨s, hs, hbad⟩ := hcn
            have hbad' : isErr (get_rates_for_country s.country_code) = true := by
              cases h : isErr (get_rates_for_country s.country_code)
              · exact absurd h hbad
              · rfl
            exact Or.inr (Or.inr (Or.inr (Or.inr
              ⟨s, hs, (get_rates_isErr_iff s.country_code).mp hbad'⟩)))
          · have hnn : ¬ (receiptIds l).Nodup :=
              fun h => hdr ((validate_duplicate_receipts_ok_iff l).mpr h)
            exact Or.inr (Or.inr (Or.inr (Or.inl (not_nodup_iff_exists_two.mp hnn))))
        · have hnp : ¬ List.Pairwise (fun a b => ¬ Overlaps a b) l :=
            fun h => hov ((validate_overlaps_ok_iff l hm).mpr h)
          exact Or.inr (Or.inr (Or.inl ((not_pairwise_iff_exists_overlap l).mp hnp)))
  · intro hdisj hok
    obtain ⟨⟨hemp, hce, hov, hdr⟩, hcn⟩ := hok
    rcases hdisj with h1 | h2 | h3 | h4 | h5
    · rw [h1] at hemp
      simp at hemp
    · obtain ⟨s, hs, hbad⟩ := h2
      exact ((check_segment_ok_iff s).mp ((check_each_ok_iff l).mp hce s hs)) hbad
    · have hm : ∀ s ∈ l, startKey s < endKey s := fun s hs =>
        seg_good_of_not_bad ((check_segment_ok_iff s).mp ((check_each_ok_iff l).mp hce s hs))
      exact (not_pairwise_iff_exists_overlap l).mpr h3 ((validate_overlaps_ok_iff l hm).mp hov)
    · exact not_nodup_iff_exists_two.mpr h4 ((validate_duplicate_receipts_ok_iff l).mp hdr)
    · obtain ⟨s, hs, hbad⟩ := h5
      have hfalse := hcn s hs
      have htrue := (get_rates_isErr_iff s.country_code).mpr hbad
      rw [hfalse] at htrue
      cases htrue


deriving instance DecidableEq for Except

/-- The rate set a segment's country resolves to (only read on the success
path, where the resolver returned `ok`). -/
def ratesOf (s : TripSegment) : RateSet :=
  match get_rates_for_country s.country_code with
  | .ok r => r
  | .error _ => { full_day := 0, partial_day := 0 }

def segGross (s : TripSegment) : ℚ := (calculate_day_allowance s (ratesOf s)).1

def segDed (s : TripSegment) : ℚ :=
  (calculate_meal_deductions s (ratesOf s).full_day).1

theorem day_allowance_cents (s : TripSegment) (rates : RateSet) :
    Cents (calculate_day_allowance s rates).1 := by
  unfold calculate_day_allowance
  dsimp only
  split
  · split
    · show Cents (money rates.partial_day)
      exact money_cents _
    · show Cents (money 0)
      exact money_cents _
  · exact money_cents _

theorem meal_deductions_cents (s : TripSegment) (full : ℚ) :
    Cents (calculate_meal_deductions s full).1 := by
  unfold calculate_meal_deductions
  dsimp only
  split
  · exact money_cents _
  · exact money_cents _

theorem segGross_cents (s : TripSegment) : Cents (segGross s) :=
  day_allowance_cents s (ratesOf s)

theorem segDed_cents (s : TripSegment) : Cents (segDed s) :=
  meal_deductions_cents s (ratesOf s).full_day

/-- Running-state invariant of the `calculate` loop: on success, the final
gross and deduction totals are the initial ones plus the per-segment values,
and `by_trip` extends with one record per segment carrying the quantized
per-trip amounts. -/
theorem processSegments_spec (segs : List TripSegment) :
    ∀ (g d : ℚ) (st : List String) (bt : List PerTripResult) out,
      processSegments segs (g, d, st, bt) = .ok out →
        out.1 = g + (segs.map segGross).sum ∧
        out.2.1 = d + (segs.map segDed).sum ∧
        out.2.2.2.map (fun t => t.gross_allowance) =
          bt.map (fun t => t.gross_allowance) ++ segs.map (fun s => money (segGross s)) ∧
        out.2.2.2.map (fun t => t.meal_deductions) =
          bt.map (fun t => t.meal_deductions) ++ segs.map (fun s => money (segDed s)) ∧
        out.2.2.2.map (fun t => t.net_allowance) =
          bt.map (fun t => t.net_allowance) ++
            segs.map (fun s => money (segGross s - segDed s)) := by
  induction segs with
  | nil =>
      intro g d st bt out h
      simp only [processSegments] at h
      cases h
      simp
  | cons s t ih =>
      intro g d st bt out h
      simp only [processSegments] at h
      rcases hr : get_rates_for_country s.country_code with e | rates
      · rw [hr] at h
        simp at h
      · rw [hr] at h
        dsimp only at h
        have hrs : ratesOf s = rates := by unfold ratesOf; rw [hr]
        obtain ⟨h1, h2, h3, h4, h5⟩ := ih _ _ _ _ _ h
        refine ⟨?_, ?_, ?_, ?_, ?_⟩
        · rw [h1, List.map_cons, List.sum_cons]
          simp only [segGross, hrs]
          ring
        · rw [h2, List.map_cons, List.sum_cons]
          simp only [segDed, hrs]
          ring
        · rw [h3, List.map_cons]
          simp only [List.map_append, segGross, hrs]
          simp
        · rw [h4, List.map_cons]
          simp only [List.map_append, segDed, hrs]
          simp
        · rw [h5, List.map_cons]
          simp only [List.map_append, segGross, segDed, hrs]
          simp

theorem list_sum_map_sub (l : List TripSegment) (f g : TripSegment → ℚ) :
    (l.map (fun s => f s - g s)).sum = (l.map f).sum - (l.map g).sum := by
  induction l with
  | nil => simp
  | cons a t ih =>
      simp only [List.map_cons, List.sum_cons, ih]
      ring

/-- What `calculate` returns on success, in terms of the sorted batch. -/
theorem calculate_ok_spec (l : List TripSegment) (r : AggregateResult)
    (h : calculate l = .ok r) :
    r.totals.gross_allowance =
      money (((l.mergeSort (fun a b => decide (startKey a ≤ startKey b))).map segGross).sum) ∧
    r.totals.meal_deductions =
      money (((l.mergeSort (fun a b => decide (startKey a ≤ startKey b))).map segDed).sum) ∧
    r.totals.net_allowance =
      money (((l.mergeSort (fun a b => decide (startKey a ≤ startKey b))).map segGross).sum -
        ((l.mergeSort (fun a b => decide (startKey a ≤ startKey b))).map segDed).sum) ∧
    r.by_trip.map (fun t => t.gross_allowance) =
      (l.mergeSort (fun a b => decide (startKey a ≤ startKey b))).map
        (fun s => money (segGross s)) ∧
    r.by_trip.map (fun t => t.meal_deductions) =
      (l.mergeSort (fun a b => decide (startKey a ≤ startKey b))).map
        (fun s => money (segDed s)) ∧
    r.by_trip.map (fun t => t.net_allowance) =
      (l.mergeSort (fun a b => decide (startKey a ≤ startKey b))).map
        (fun s => money (segGross s - segDed s)) := by
  unfold calculate at h
  rcases hv : validate_segments l with e | u
  · rw [hv] at h; simp at h
  · rw [hv] at h
    cases u
    dsimp only at h
    rcases hp : processSegments (l.mergeSort (fun a b => decide (startKey a ≤ startKey b)))
        (0, 0, [s!"Applying rule version: {RULE_VERSION}"], []) with e | out
    · rw [hp] at h; simp at h
    · rw [hp] at h
      obtain ⟨g, d, stp, bt⟩ := out
      dsimp only at h
      cases h
      obtain ⟨h1, h2, h3, h4, h5⟩ := processSegments_spec _ _ _ _ _ _ hp
      simp only [List.map_nil, List.nil_append] at h3 h4 h5
      refine ⟨?_, ?_, ?_, ?_, ?_, ?_⟩
      · rw [show g = _ from h1]
        simp
      · rw [show d = _ from h2]
        simp
      · rw [show g = _ from h1, show d = _ from h2]
        simp
      · exact h3
      · exact h4
      · exact h5

/-- On success the reported grand totals coincide exactly with the sums of
the (already quantized) per-trip amounts. -/
theorem totals_eq_pertrip_sums (l : List TripSegment) (r : AggregateResult)
    (h : calculate l = .ok r) :
    r.totals.gross_allowance = (r.by_trip.map (fun t => t.gross_allowance)).sum ∧
    r.totals.meal_deductions = (r.by_trip.map (fun t => t.meal_deductions)).sum ∧
    r.totals.net_allowance = (r.by_trip.map (fun t => t.net_allowance)).sum := by
  obtain ⟨hg, hd, hn, hbg, hbd, hbn⟩ := calculate_ok_spec l r h
  have hmg : (l.mergeSort (fun a b => decide (startKey a ≤ startKey b))).map
      (fun s => money (segGross s)) =
      (l.mergeSort (fun a b => decide (startKey a ≤ startKey b))).map segGross :=
    List.map_congr_left (fun s _ => money_of_cents (segGross_cents s))
  have hmd : (l.mergeSort (fun a b => decide (startKey a ≤ startKey b))).map
      (fun s => money (segDed s)) =
      (l.mergeSort (fun a b => decide (startKey a ≤ startKey b))).map segDed :=
    List.map_congr_left (fun s _ => money_of_cents (segDed_cents s))
  have hmn : (l.mergeSort (fun a b => decide (startKey a ≤ startKey b))).map
      (fun s => money (segGross s - segDed s)) =
      (l.mergeSort (fun a b => decide (startKey a ≤ startKey b))).map
        (fun s => segGross s - segDed s) :=
    List.map_congr_left
      (fun s _ => money_of_cents (cents_sub (segGross_cents s) (segDed_cents s)))
  have hcg : Cents (((l.mergeSort (fun a b => decide (startKey a ≤ startKey b))).map
      segGross).sum) := by
    refine cents_sum ?_
    intro x hx
    obtain ⟨s, _, rfl⟩ := List.mem_map.mp hx
    exact segGross_cents s
  have hcd : Cents (((l.mergeSort (fun a b => decide (startKey a ≤ startKey b))).map
      segDed).sum) := by
    refine cents_sum ?_
    intro x hx
    obtain ⟨s, _, rfl⟩ := List.mem_map.mp hx
    exact segDed_cents s
  refine ⟨?_, ?_, ?_⟩
  · rw [hg, hbg, hmg, money_of_cents hcg]
  · rw [hd, hbd, hmd, money_of_cents hcd]
  · rw [hn, hbn, hmn, list_sum_map_sub, money_of_cents (cents_sub hcg hcd)]

/-- A domestic single-day 6-hour trip on the following day with breakfast
provided: gross 0.00 but deduction 5.60, so net −5.60. -/
def segNeg : TripSegment :=
  { trip_id := "T2", start := some 1770019200, «end» := some 1770040800,
    provided_meals := [{ day := 20486, breakfast := true }] }

def emptyAggregate : AggregateResult :=
  { rule_version := "",
    totals := { gross_allowance := 0, meal_deductions := 0, net_allowance := 0 },
    calculation_steps := [], by_trip := [] }

/-- C6 (amended): the running totals accumulate the per-segment gross
allowance and meal deduction, which the day allocator and the meal
calculator return already quantized, and the grand totals are quantized once
at the end; since every summand is a whole number of cents that final
quantization is the identity and the reported totals equal exactly the sums
of the rounded per-trip values. -/
theorem claim_C6_grand_totals (l : List TripSegment) (r : AggregateResult)
    (h : calculate l = .ok r) :
    r.totals.gross_allowance = (r.by_trip.map (fun t => t.gross_allowance)).sum ∧
    r.totals.meal_deductions = (r.by_trip.map (fun t => t.meal_deductions)).sum ∧
    r.totals.net_allowance = (r.by_trip.map (fun t => t.net_allowance)).sum :=
  totals_eq_pertrip_sums l r h

/-- C6, counterexample to the claim as stated: at a concrete two-trip batch
the reported grand totals (14.00 gross, 5.60 deductions, 8.40 net) are
exactly the sums of the already-rounded per-trip values, so the totals are
a sum of already-rounded per-trip values. -/
theorem claim_C6_grand_totals_counterexample :
    (calculate [segC2long, segNeg]).toOption.map (fun r =>
      (r.totals.gross_allowance, (r.by_trip.map (fun t => t.gross_allowance)).sum,
       r.totals.meal_deductions, (r.by_trip.map (fun t => t.meal_deductions)).sum,
       r.totals.net_allowance, (r.by_trip.map (fun t => t.net_allowance)).sum)) =
      some (14, 14, 28/5, 28/5, 42/5, 42/5) := by
  with_unfolding_all decide

def resC6 : AggregateResult := (calculate [segC2long, segNeg]).toOption.getD emptyAggregate

theorem claim_C6_grand_totals_witness :
    resC6.totals.gross_allowance = (resC6.by_trip.map (fun t => t.gross_allowance)).sum ∧
    resC6.totals.meal_deductions = (resC6.by_trip.map (fun t => t.meal_deductions)).sum ∧
    resC6.totals.net_allowance = (resC6.by_trip.map (fun t => t.net_allowance)).sum :=
  claim_C6_grand_totals [segC2long, segNeg] resC6 (by with_unfolding_all decide)

/-- C7: on success, the grand net total differs from the sum of the per-trip
net allowances by at most 0.01 per segment (in fact the difference is zero). -/
theorem claim_C7_rounding_drift_bound (l : List TripSegment) (r : AggregateResult)
    (h : calculate l = .ok r) :
    |r.totals.net_allowance - (r.by_trip.map (fun t => t.net_allowance)).sum| ≤
      (l.length : ℚ) * (1 / 100) := by
  obtain ⟨-, -, hn⟩ := totals_eq_pertrip_sums l r h
  rw [hn, sub_self, abs_zero]
  positivity

def resC7 : AggregateResult := (calculate [segC2long]).toOption.getD emptyAggregate

theorem claim_C7_rounding_drift_bound_witness :
    |resC7.totals.net_allowance - (resC7.by_trip.map (fun t => t.net_allowance)).sum| ≤
      (([segC2long] : List TripSegment).length : ℚ) * (1 / 100) :=
  claim_C7_rounding_drift_bound [segC2long] resC7 (by with_unfolding_all decide)

/-- C9: meal deductions apply even on a zero-priced day: a single-day trip of
under 8 hours with breakfast provided yields gross 0.00, deduction 5.60 and a
negative net of −5.60, at trip level and in the grand total — nothing floors
the net at zero. -/
theorem claim_C9_negative_net :
    (calculate [segNeg]).toOption.map (fun r =>
      (r.by_trip.map (fun t => (t.gross_allowance, t.meal_deductions, t.net_allowance)),
       r.totals.net_allowance)) = some ([(0, 28/5, -(28/5))], -(28/5)) ∧
    ((-(28/5) : ℚ) < 0) := by
  constructor
  · with_unfolding_all decide
  · norm_num


/-- On a successful batch all start times are distinct, so the stable sort
(by start) of any permutation of the batch is the same list. -/
theorem mergeSort_eq_of_perm (l l' : List TripSegment)
    (hperm : l.Perm l')
    (hm : ∀ s ∈ l, startKey s < endKey s)
    (hov : validate_overlaps l = .ok ()) :
    l'.mergeSort (fun a b => decide (startKey a ≤ startKey b)) =
      l.mergeSort (fun a b => decide (startKey a ≤ startKey b)) := by
  have hpermL : (l.mergeSort (fun a b => decide (startKey a ≤ startKey b))).Perm l :=
    List.mergeSort_perm l _
  have hpermL' : (l'.mergeSort (fun a b => decide (startKey a ≤ startKey b))).Perm l' :=
    List.mergeSort_perm l' _
  have hLL' : (l'.mergeSort (fun a b => decide (startKey a ≤ startKey b))).Perm
      (l.mergeSort (fun a b => decide (startKey a ≤ startKey b))) :=
    (hpermL'.trans hperm.symm).trans hpermL.symm
  -- the sorted original is strictly increasing in start keys
  unfold validate_overlaps at hov
  have hchain := (checkAdjacent_ok_iff _).mp hov
  have hchain' := hchain.imp (fun {a b} h => Nat.le_of_not_lt h)
  have hmL : ∀ s ∈ l.mergeSort (fun a b => decide (startKey a ≤ startKey b)),
      startKey s < endKey s := fun s hs => hm s (hpermL.mem_iff.mp hs)
  have hpwL := pairwise_of_chain' hmL hchain'
  have hltL : List.Pairwise (fun a b => startKey a < startKey b)
      (l.mergeSort (fun a b => decide (startKey a ≤ startKey b))) := by
    refine List.Pairwise.imp_of_mem ?_ hpwL
    intro a b ha hb hab
    exact Nat.lt_of_lt_of_le (hmL a ha) hab
  -- start keys are pairwise distinct, also after permuting
  have hndL : ((l.mergeSort (fun a b => decide (startKey a ≤ startKey b))).map
      startKey).Nodup :=
    (List.pairwise_map.mpr hltL).imp (fun h => Nat.ne_of_lt h)
  have hndL2 : ((l'.mergeSort (fun a b => decide (startKey a ≤ startKey b))).map
      startKey).Nodup := ((hLL'.map startKey).nodup_iff).mpr hndL
  -- the sorted permutation is therefore also strictly sorted
  have hsorted' : List.Pairwise
      (fun a b => (fun a b => decide (startKey a ≤ startKey b)) a b = true)
      (l'.mergeSort (fun a b => decide (startKey a ≤ startKey b))) :=
    List.sorted_mergeSort
      (fun a b c hab hbc => by simp only [decide_eq_true_eq] at hab hbc ⊢; omega)
      (fun a b => by simp only [Bool.or_eq_true, decide_eq_true_eq]; omega) l'
  have hltL' : List.Pairwise (fun a b => startKey a < startKey b)
      (l'.mergeSort (fun a b => decide (startKey a ≤ startKey b))) := by
    rw [List.pairwise_iff_getElem] at hsorted' ⊢
    intro i j hi hj hij
    have hle := hsorted' i j hi hj hij
    simp only [decide_eq_true_eq] at hle
    have hne : ¬ (startKey (l'.mergeSort (fun a b => decide (startKey a ≤ startKey b)))[i] =
        startKey (l'.mergeSort (fun a b => decide (startKey a ≤ startKey b)))[j]) := by
      intro heq
      have hi2 : i < ((l'.mergeSort (fun a b => decide (startKey a ≤ startKey b))).map
          startKey).length := by simpa using hi
      have hj2 : j < ((l'.mergeSort (fun a b => decide (startKey a ≤ startKey b))).map
          startKey).length := by simpa using hj
      have hgi : ((l'.mergeSort (fun a b => decide (startKey a ≤ startKey b))).map
          startKey).get ⟨i, hi2⟩ =
          ((l'.mergeSort (fun a b => decide (startKey a ≤ startKey b))).map
          startKey).get ⟨j, hj2⟩ := by
        simp only [List.get_eq_getElem, List.getElem_map]
        exact heq
      have hfin := List.nodup_iff_injective_get.mp hndL2 hgi
      have : i = j := congrArg Fin.val hfin
      omega
    omega
  haveI : IsAntisymm TripSegment (fun a b => startKey a < startKey b) :=
    ⟨fun a b h1 h2 => absurd (Nat.lt_trans h1 h2) (Nat.lt_irrefl _)⟩
  exact List.eq_of_perm_of_sorted hLL' hltL' hltL

/-- C8: on any batch where `calculate` succeeds, every permutation of the
batch yields the identical AggregateResult — same totals, same `by_trip`
order (ascending start), same calculation steps. -/
theorem claim_C8_order_invariance (l l' : List TripSegment)
    (hperm : l.Perm l') (hok : isErr (calculate l) = false) :
    calculate l' = calculate l := by
  obtain ⟨hval, hcn⟩ := (calculate_isErr_false_iff l).mp hok
  obtain ⟨hemp, hce, hov, hdr⟩ := (validate_segments_ok_iff l).mp hval
  have hgood : ∀ s ∈ l, ¬ SegTimeBad s := fun s hs =>
    (check_segment_ok_iff s).mp ((check_each_ok_iff l).mp hce s hs)
  have hm : ∀ s ∈ l, startKey s < endKey s := fun s hs =>
    seg_good_of_not_bad (hgood s hs)
  have hEq := mergeSort_eq_of_perm l l' hperm hm hov
  have hemp' : l'.isEmpty = false := by
    cases hb : l'.isEmpty
    · rfl
    · have h1 : l' = [] := List.isEmpty_iff.mp hb
      subst h1
      have h2 : l = [] := List.perm_nil.mp hperm
      rw [h2] at hemp
      simp at hemp
  have hce' : check_each l' = .ok () := (check_each_ok_iff l').mpr
    (fun s hs => (check_each_ok_iff l).mp hce s (hperm.mem_iff.mpr hs))
  have hov' : validate_overlaps l' = .ok () := by
    unfold validate_overlaps at hov ⊢
    rw [hEq]
    exact hov
  have hdr' : validate_duplicate_receipts l' = .ok () := by
    rw [validate_duplicate_receipts_ok_iff] at hdr ⊢
    have hpp : (receiptPairs l').Perm (receiptPairs l) :=
      List.Perm.flatten ((hperm.symm).map _)
    exact ((hpp.map Prod.fst).nodup_iff).mpr hdr
  have hval' : validate_segments l' = .ok () :=
    (validate_segments_ok_iff l').mpr ⟨hemp', hce', hov', hdr'⟩
  unfold calculate
  rw [hval, hval', hEq]

theorem claim_C8_order_invariance_witness :
    ([segC2long, segNeg] : List TripSegment).Perm [segNeg, segC2long] ∧
    isErr (calculate [segC2long, segNeg]) = false ∧
    calculate [segNeg, segC2long] = calculate [segC2long, segNeg] :=
  ⟨List.Perm.swap _ _ _, by with_unfolding_all decide,
    claim_C8_order_invariance [segC2long, segNeg] [segNeg, segC2long]
      (List.Perm.swap _ _ _) (by with_unfolding_all decide)⟩

/-- A segment that carries two receipts with the same receipt id. -/
def dupReceiptSeg (t rid : String) (a1 a2 : ℚ) (st en : Nat) : TripSegment :=
  { trip_id := t, start := some st, «end» := some en,
    receipts := [{ receipt_id := rid, amount := a1 },
                 { receipt_id := rid, amount := a2 }] }

/-- C10: receipt-id uniqueness is enforced even inside a single segment: a
segment carrying two receipts with the same id fails validation with an error
naming that segment's trip id as both owners. -/
theorem claim_C10_duplicate_receipt_same_segment
    (t rid : String) (a1 a2 : ℚ) (st en : Nat) (hv : st < en) :
    validate_segments [dupReceiptSeg t rid a1 a2 st en] =
      .error s!"Duplicate receipt id {rid} in trips {t} and {t}." := by
  unfold validate_segments
  rw [if_neg (by simp)]
  have hce : check_each [dupReceiptSeg t rid a1 a2 st en] = .ok () := by
    simp only [check_each, check_segment, dupReceiptSeg]
    rw [if_neg (Nat.not_le.mpr hv)]
  rw [hce]
  have hov : validate_overlaps [dupReceiptSeg t rid a1 a2 st en] = .ok () := by
    unfold validate_overlaps
    rw [List.mergeSort_singleton]
    rfl
  rw [hov]
  unfold validate_duplicate_receipts receiptPairs
  simp [scanReceipts, List.lookup, dupReceiptSeg]

theorem claim_C10_duplicate_receipt_same_segment_witness :
    validate_segments [dupReceiptSeg "T1" "R1" 10 5 1769932800 1769961600] =
      .error "Duplicate receipt id R1 in trips T1 and T1." :=
  claim_C10_duplicate_receipt_same_segment "T1" "R1" 10 5 1769932800 1769961600
    (by decide)
